import Mathlib

/-!
Verification of the distributed course-generation worker
(`projects/project5_2`): a shallow embedding of the Redis-backed task
lifecycle engine — reliable dequeue, distributed lock, heartbeat, bounded
retry with backoff, state publication and crash recovery — together with
theorems settling the specification claims.

Sources embedded:
- `src/utils/redis_client.py` (`RedisManager.heartbeat`)
- `extend/state_synchronizer.py` (`StateSynchronizer.acquire_lock`, `release_lock`)
- `extend/task_processor.py` (`TaskProcessor.safe_fetch`, `remove_from_processing`)
- `extend/retry_manager.py` (`RetryManager.should_retry`, `get_backoff_time`)
- `src/course_system.py` (`CourseSystem._handle_task`,
  `_process_task_with_retry`, `_process_leftovers`, `_heartbeat_loop`)
-/

namespace CourseWorker

/-! ## Redis key-value model (strings with TTL, hashes)

The lock operations use the Redis string commands SET (with NX and EX),
GET, DELETE and EXPIRE; task state records live in Redis hashes (HSET).
TTLs are modelled in whole seconds; `kvTick` models the passage of time,
dropping entries whose TTL has elapsed (Redis natural expiry). -/

/-- One Redis string entry: key, value, remaining TTL in seconds.  Every
string entry written by the embedded code is created with EX, so each
entry carries a TTL. -/
structure KVEntry where
  key : String
  val : String
  ttl : Nat
deriving DecidableEq, Repr

/-- Redis state: string keys (locks) and hash keys (task state records). -/
structure RedisState where
  strings : List KVEntry
  hashes : List (String × List (String × String))
deriving DecidableEq, Repr

/-- Redis GET on a string key. -/
def kvGet (s : RedisState) (k : String) : Option String :=
  (s.strings.find? (fun e => e.key == k)).map (fun e => e.val)

/-- TTL of a string key (none when the key is absent). -/
def kvTtl (s : RedisState) (k : String) : Option Nat :=
  (s.strings.find? (fun e => e.key == k)).map (fun e => e.ttl)

/-- Redis `SET k v EX ttl NX`: one atomic conditional write.  Returns
whether the write happened (true iff the key was absent). -/
def kvSetNxEx (s : RedisState) (k v : String) (ttl : Nat) : Bool × RedisState :=
  match kvGet s k with
  | some _ => (false, s)
  | none => (true, { s with strings := ⟨k, v, ttl⟩ :: s.strings })

/-- Redis DEL on a string key. -/
def kvDel (s : RedisState) (k : String) : RedisState :=
  { s with strings := s.strings.filter (fun e => !(e.key == k)) }

/-- Redis EXPIRE: reset the TTL of a key; returns false (Redis reply 0)
when the key does not exist, leaving the state unchanged. -/
def kvExpire (s : RedisState) (k : String) (ttl : Nat) : Bool × RedisState :=
  if s.strings.any (fun e => e.key == k) then
    let g := fun (e : KVEntry) => if e.key == k then { e with ttl := ttl } else e
    (true, { s with strings := s.strings.map g })
  else (false, s)

/-- Passage of `n` seconds: entries whose TTL elapses are dropped
(natural expiry); the rest have their TTL reduced. -/
def kvTick (s : RedisState) (n : Nat) : RedisState :=
  let g := fun (e : KVEntry) => if e.ttl ≤ n then none else some { e with ttl := e.ttl - n }
  { s with strings := s.strings.filterMap g }

/-- HSET of a single field in one hash. -/
def hsetField (h : List (String × String)) (f v : String) : List (String × String) :=
  if h.any (fun p => p.1 == f) then
    h.map (fun p => if p.1 == f then (f, v) else p)
  else (f, v) :: h

/-- Redis HSET key field value. -/
def hset (s : RedisState) (k f v : String) : RedisState :=
  if s.hashes.any (fun p => p.1 == k) then
    let g := fun (p : String × List (String × String)) =>
      if p.1 == k then (p.1, hsetField p.2 f v) else p
    { s with hashes := s.hashes.map g }
  else { s with hashes := (k, [(f, v)]) :: s.hashes }

/-! ## Distributed lock (`extend/state_synchronizer.py` lines 37-62) -/

/-- `StateSynchronizer.acquire_lock(resource_id, owner_id, expire_seconds)`:
key is `"lock:" + resource_id`; `SET key owner_id EX expire_seconds NX`;
returns `bool(acquired)`. -/
def acquire_lock (s : RedisState) (resource_id owner_id : String)
    (expire_seconds : Nat) : Bool × RedisState :=
  kvSetNxEx s ("lock:" ++ resource_id) owner_id expire_seconds

/-- `StateSynchronizer.release_lock(resource_id, owner_id)`:
`val = GET "lock:" + resource_id; if val == owner_id: DELETE key`. -/
def release_lock (s : RedisState) (resource_id owner_id : String) : RedisState :=
  match kvGet s ("lock:" ++ resource_id) with
  | some v => if v = owner_id then kvDel s ("lock:" ++ resource_id) else s
  | none => s

/-- `RedisManager.heartbeat(task_id)` (`src/utils/redis_client.py` lines
102-112): guarded by the Python truthiness check `if task_id:` (empty
string is falsy); `HSET "task:" + task_id + ":state" last_update now`,
then `EXPIRE "lock:task:" + task_id 300`.  `now` stands for the wall
clock value `time.time()`. -/
def heartbeat (s : RedisState) (task_id : String) (now : String) : RedisState :=
  if task_id = "" then s
  else
    let s1 := hset s ("task:" ++ task_id ++ ":state") "last_update" now
    (kvExpire s1 ("lock:task:" ++ task_id) 300).2

/-! ## Retry policy (`extend/retry_manager.py`)

Python floats are modelled as rationals; the `random.uniform(0, 0.1*delay)`
draw is modelled as an arbitrary admissible jitter parameter. -/

/-- `RetryManager` configuration (defaults: `max_retries=3`,
`base_delay=1.0`, `max_delay=60.0`). -/
structure RetryCfg where
  max_retries : Nat
  base_delay : ℚ
  max_delay : ℚ
deriving DecidableEq, Repr

/-- The `RetryManager(max_retries=3)` instance built by
`CourseSystem.__init__` with default delays. -/
def defaultRetryCfg : RetryCfg := ⟨3, 1, 60⟩

/-- `RetryManager.should_retry(current_retries)`:
`current_retries < max_retries`. -/
def should_retry (cfg : RetryCfg) (current_retries : Nat) : Bool :=
  current_retries < cfg.max_retries

/-- The jitter drawn by `random.uniform(0, 0.1 * delay)` where
`delay = base_delay * 2 ** current_retries`: any value in that closed
interval. -/
def jitterAdmissible (cfg : RetryCfg) (current_retries : Nat) (j : ℚ) : Prop :=
  0 ≤ j ∧ j ≤ (1 / 10) * (cfg.base_delay * 2 ^ current_retries)

/-- `RetryManager.get_backoff_time(current_retries)`:
`min(base_delay * 2 ** current_retries + jitter, max_delay)`. -/
def get_backoff_time (cfg : RetryCfg) (current_retries : Nat) (j : ℚ) : ℚ :=
  min (cfg.base_delay * 2 ^ current_retries + j) cfg.max_delay

/-- The least possible value of `get_backoff_time` over admissible
jitters (attained at jitter 0). -/
def backoffLower (cfg : RetryCfg) (current_retries : Nat) : ℚ :=
  min (cfg.base_delay * 2 ^ current_retries) cfg.max_delay

/-! ## One handling pass of the worker (`src/course_system.py`)

`_handle_task` and `_process_task_with_retry` are embedded as functions
producing the sequence of observable effects of one pass, plus its
result.  The Executor (`CourseAgentExecutor.execute`, an external
collaborator) is an oracle mapping the attempt index to a result or a
raised error; `json.dumps` of a success result (line 236, the only other
raise point inside the guarded region — `sync_state`, `get_state`,
`release_lock`, `remove_from_processing` and
`GrpcClient.report_result` all swallow their own exceptions in the
source) is an oracle `serOk`. -/

/-- Observable events of one `_handle_task` pass, in program order. -/
inductive Ev where
  | checkState
  | lockTry (ok : Bool)
  | hbStart
  | pubRunning
  | execE (attempt : Nat)
  | waitE (attempt : Nat)
  | pubRetrying (retry_count : Nat)
  | pubCompleted
  | pubFailed (err : String)
  | reportE (success : Bool)
  | hbStop
  | releaseE
  | ackE
deriving DecidableEq, Repr

/-- Result of one `_handle_task` pass. -/
inductive HandleRes where
  | skippedCompleted
  | skippedLocked
  | finished (success : Bool)
deriving DecidableEq, Repr

/-- The events that are status transitions published through
`sync_state` (`running`, `retrying`, `completed`, `failed`). -/
def isTransition : Ev → Bool
  | .pubRunning => true
  | .pubRetrying _ => true
  | .pubCompleted => true
  | .pubFailed _ => true
  | _ => false

/-- The loop of `_process_task_with_retry` (`src/course_system.py` lines
285-301), from loop state `retries`.  The Python guard
`should_retry(retries)`, i.e. `retries < max_retries`, is represented by
the structurally decreasing argument `remaining = max_retries - retries`
being nonzero; the wrapper `process_task_with_retry` starts at
`retries = 0`, `remaining = max_retries`, and each recursive call keeps
`remaining = max_retries - retries`.  On a failure with the guard true
the source runs, in order: `log_failure`, `wait_for_retry(retries)`,
`retries += 1`, `sync_state("retrying", retry_count=retries)`, then
loops; with the guard false it re-raises the error. -/
def retryGo (ex : Nat → Except String String) (retries : Nat) :
    Nat → List Ev × Except String String
  | 0 =>
    (match ex retries with
     | .ok r => ([.execE retries], .ok r)
     | .error e => ([.execE retries], .error e))
  | remaining + 1 =>
    match ex retries with
    | .ok r => ([.execE retries], .ok r)
    | .error e =>
      let rest := retryGo ex (retries + 1) remaining
      (.execE retries :: .waitE retries :: .pubRetrying (retries + 1) :: rest.1,
       rest.2)

/-- `CourseSystem._process_task_with_retry(task_id, task_data)`:
the retry loop started with `retries = 0`. -/
def process_task_with_retry (ex : Nat → Except String String) (maxR : Nat) :
    List Ev × Except String String :=
  retryGo ex 0 maxR

/-- The idempotency condition of `_handle_task` line 201:
`state and state.get('status') == 'completed'` on the `hgetall` result
(an empty hash is falsy). -/
def completedAlready (st : List (String × String)) : Bool :=
  !st.isEmpty &&
    ((st.find? (fun p => p.1 == "status")).map (fun p => p.2) == some "completed")

/-- `CourseSystem._handle_task` (`src/course_system.py` lines 197-271) as
an event trace.  `st` is the `get_state` result, `lockOk` the
`acquire_lock` outcome, `ex` the Executor oracle, `serOk`/`serErr` the
`json.dumps` oracle for the success result and the text of its error.
Branches in program order: the completed-skip (lines 200-204), the
lock-contention skip (lines 207-218), then heartbeat start, `running`
publication, the retry loop, the success path (lines 236-242: serialize,
publish `completed`, report SUCCESS) or the failure path (lines 244-249:
publish `failed` with the error, report FAILURE), and the `finally`
block (lines 251-263: heartbeat stop, lock release, ack). -/
def handle_task (st : List (String × String)) (lockOk : Bool) (maxR : Nat)
    (ex : Nat → Except String String) (serOk : String → Bool) (serErr : String) :
    List Ev × HandleRes :=
  if completedAlready st then
    ([.checkState, .ackE], .skippedCompleted)
  else if !lockOk then
    ([.checkState, .lockTry false, .ackE], .skippedLocked)
  else
    let r := process_task_with_retry ex maxR
    let outcome : List Ev × Bool :=
      match r.2 with
      | .ok v =>
        if serOk v then ([.pubCompleted, .reportE true], true)
        else ([.pubFailed serErr, .reportE false], false)
      | .error e => ([.pubFailed e, .reportE false], false)
    (([.checkState, .lockTry true, .hbStart, .pubRunning] ++ r.1 ++ outcome.1)
       ++ [.hbStop, .releaseE, .ackE],
     .finished outcome.2)

/-- A concrete Executor oracle: fails twice then succeeds (the scenario
of spec section 8). -/
def exTwiceFail : Nat → Except String String :=
  fun n => if n < 2 then .error "boom" else .ok "done"

/-- The ordering asserted by the claim under test for C4: every
`retrying` publication is immediately followed by the backoff wait. -/
def pubThenWait : List Ev → Bool
  | [] => true
  | .pubRetrying _ :: rest =>
    (match rest with
     | .waitE _ :: _ => true
     | _ => false) && pubThenWait rest
  | _ :: rest => pubThenWait rest

/-! ## Reliable queue (`extend/task_processor.py`)

A raw serialized record is abstracted by the outcome of the two probes
the source applies to it — `json.loads` (may fail) and
`task_data.get('id')` (may be absent or falsy): `invalid` is a record
whose payload is not valid JSON, `noId` parses but has no truthy id,
`task id s` parses with truthy id `id`.  The `s` component keeps
distinct raw byte strings distinct; equality of records is equality of
the exact raw serialized form.  Redis lists are Lean lists with the head
at the left (LPUSH side); queue and processing keyspaces are the two
components of `QState`. -/

/-- A raw serialized queue record, abstracted by its parse outcome. -/
inductive RawRec where
  | invalid (s : String)
  | noId (s : String)
  | task (id : String) (s : String)
deriving DecidableEq, Repr

/-- Association-list read (first match), empty list for a missing key:
a missing Redis list key behaves as the empty list. -/
def listOf : List (String × List RawRec) → String → List RawRec
  | [], _ => []
  | (k1, l1) :: rest, k => if k1 = k then l1 else listOf rest k

/-- Association-list write (first match, insert when absent). -/
def setList : List (String × List RawRec) → String → List RawRec →
    List (String × List RawRec)
  | [], k, l => [(k, l)]
  | (k1, l1) :: rest, k, l =>
    if k1 = k then (k, l) :: rest else (k1, l1) :: setList rest k l

/-- Queue-side state: the priority queues and the per-worker processing
lists (two disjoint key namespaces in the source: `tasks:...` versus
`tasks:processing:worker_id`). -/
structure QState where
  queues : List (String × List RawRec)
  processing : List (String × List RawRec)
deriving DecidableEq, Repr

/-- Redis `RPUSH q r` on a priority queue (producer side,
`CourseSystem.submit_task` / `produce_task.py`): append at the tail. -/
def rpush (s : QState) (q : String) (r : RawRec) : QState :=
  { s with queues := setList s.queues q (listOf s.queues q ++ [r]) }

/-- Redis `RPOPLPUSH src dst`: atomically pop the tail of the source
queue and push it at the head of the processing list, returning the
moved element. -/
def rpoplpush (s : QState) (src dst : String) : Option RawRec × QState :=
  match (listOf s.queues src).getLast? with
  | none => (none, s)
  | some r =>
    (some r,
     { queues := setList s.queues src (listOf s.queues src).dropLast,
       processing := setList s.processing dst (r :: listOf s.processing dst) })

/-- Remove the first occurrence of a value from a list
(Redis `LREM key 1 value`). -/
def lremOne : List RawRec → RawRec → List RawRec
  | [], _ => []
  | x :: xs, r => if x = r then xs else x :: lremOne xs r

/-- `TaskProcessor.remove_from_processing(processing_queue, raw)` /
`ack`: `LREM processing_queue 1 raw`. -/
def remove_from_processing (s : QState) (dst : String) (r : RawRec) : QState :=
  { s with processing := setList s.processing dst (lremOne (listOf s.processing dst) r) }

/-- The default scan order of `TaskProcessor.__init__`:
`['tasks:high', 'tasks:medium', 'tasks:low', 'tasks:default']`. -/
def defaultQueues : List String :=
  ["tasks:high", "tasks:medium", "tasks:low", "tasks:default"]

/-- The scan loop of `TaskProcessor.safe_fetch` (`task_processor.py`
lines 77-94): for each queue in order, `RPOPLPUSH queue processing`;
on a record with a truthy id return
`(task_id, task_data, queue, raw)` (the parsed `task_data` is the
record itself in this abstraction); on invalid JSON
`LREM processing 1 raw` and continue with the next queue; on a record
without truthy id fall through (leaving it in the processing list) and
continue with the next queue; `None` when every queue came up empty. -/
def safeFetchGo (proc : String) :
    List String → QState → Option (String × String × RawRec) × QState
  | [], s => (none, s)
  | q :: rest, s =>
    match rpoplpush s q proc with
    | (none, _) => safeFetchGo proc rest s
    | (some r, s1) =>
      match r with
      | .invalid _ => safeFetchGo proc rest (remove_from_processing s1 proc r)
      | .noId _ => safeFetchGo proc rest s1
      | .task id _ => (some (id, q, r), s1)

/-- `TaskProcessor.safe_fetch(processing_queue)` with the default
queue list. -/
def safe_fetch (s : QState) (proc : String) :
    Option (String × String × RawRec) × QState :=
  safeFetchGo proc defaultQueues s

/-- `CourseSystem._process_leftovers(processing_queue)` (lines 155-181),
restricted to its effect on the processing list: while the list is
nonempty, read its head `r` (`LINDEX 0`); every branch then removes `r`
by `LREM processing 1 r` — directly for a record with invalid JSON or
without id, and through the finalize ack of `_handle_task` for a task
record. -/
def processLeftovers (l : List RawRec) : List RawRec :=
  match l with
  | [] => []
  | r :: rest => processLeftovers (lremOne (r :: rest) r)
termination_by l.length
decreasing_by simp [lremOne]

/-- Number of occurrences of a record across all lists of one keyspace. -/
def countIn (m : List (String × List RawRec)) (r : RawRec) : Nat :=
  (m.map (fun p => p.2.count r)).sum

/-- Total number of occurrences of a record in the system. -/
def sysCount (s : QState) (r : RawRec) : Nat :=
  countIn s.queues r + countIn s.processing r

/-- The invariant of spec section 3: every task record is in at most one
place (one priority queue, or one processing list, or nowhere). -/
def TaskInv (s : QState) : Prop :=
  ∀ id str, sysCount s (RawRec.task id str) ≤ 1

/-- System steps over the queue state: a producer enqueues a fresh
record (`RPUSH`), a worker fetches (`safe_fetch`), a worker acknowledges
(`LREM`, also the leftover-recovery removal).  The freshness hypothesis
on enqueue states that producers do not enqueue a record already present
in the system. -/
inductive QStep : QState → QState → Prop where
  | enqueue (s : QState) (q : String) (r : RawRec) (h : sysCount s r = 0) :
      QStep s (rpush s q r)
  | fetch (s : QState) (proc : String) : QStep s (safe_fetch s proc).2
  | ackStep (s : QState) (proc : String) (r : RawRec) :
      QStep s (remove_from_processing s proc r)

/-! ## Helper lemmas -/

/-- Filtering out a key leaves no entry with that key to be found. -/
theorem find?_filter_key_none (l : List KVEntry) (k : String) :
    (l.filter (fun e => !(e.key == k))).find? (fun e => e.key == k) = none := by
  induction l with
  | nil => rfl
  | cons x xs ih =>
    by_cases hx : x.key = k
    · simp [List.filter_cons, hx, ih]
    · simp [List.filter_cons, hx, List.find?_cons, beq_iff_eq, ih]

/-- After a DEL, a GET of the same key returns nothing. -/
theorem kvGet_kvDel (s : RedisState) (k : String) : kvGet (kvDel s k) k = none := by
  simp [kvGet, kvDel, find?_filter_key_none]

/-! ## Claim theorems -/

/-- Claim C6: `acquire_lock(resource_id, owner_id, ttl)` returns true iff
no live lock record exists for `resource_id` at the moment of the call
(a live lock being a present entry at key `"lock:" + resource_id`; the
conditional write `SET ... NX EX` is a single atomic store operation,
one step of this model); on success it stores the owner identity and the
TTL at that key; when a live lock exists it returns false and leaves the
store unchanged. -/
theorem C6_acquire_lock_spec (s : RedisState) (rid oid : String) (ttl : Nat) :
    ((acquire_lock s rid oid ttl).1 = true ↔ kvGet s ("lock:" ++ rid) = none)
    ∧ ((acquire_lock s rid oid ttl).1 = true →
        (acquire_lock s rid oid ttl).2.strings = ⟨"lock:" ++ rid, oid, ttl⟩ :: s.strings
          ∧ kvGet (acquire_lock s rid oid ttl).2 ("lock:" ++ rid) = some oid
          ∧ kvTtl (acquire_lock s rid oid ttl).2 ("lock:" ++ rid) = some ttl)
    ∧ ((acquire_lock s rid oid ttl).1 = false → (acquire_lock s rid oid ttl).2 = s) := by
  unfold acquire_lock kvSetNxEx
  cases h : kvGet s ("lock:" ++ rid) with
  | some v => simp [h]
  | none => simp [h, kvGet, kvTtl, List.find?_cons]

/-- Witness for C6: on an empty store the acquire succeeds and writes
the lock entry. -/
theorem C6_acquire_lock_spec_witness :
    (acquire_lock ⟨[], []⟩ "t1" "w1" 300).1 = true
      ∧ (acquire_lock ⟨[], []⟩ "t1" "w1" 300).2.strings = [⟨"lock:t1", "w1", 300⟩] := by
  have h := C6_acquire_lock_spec ⟨[], []⟩ "t1" "w1" 300
  have ht : (acquire_lock (⟨[], []⟩ : RedisState) "t1" "w1" 300).1 = true := h.1.mpr rfl
  exact ⟨ht, (h.2.1 ht).1⟩

/-- Claim C9: `release_lock(resource_id, owner_id)` deletes the lock
record only when the stored owner equals `owner_id` (afterwards the key
is absent); when the stored owner differs or no record exists, the store
is unchanged. -/
theorem C9_release_lock_spec (s : RedisState) (rid oid : String) :
    (kvGet s ("lock:" ++ rid) = some oid →
        release_lock s rid oid = kvDel s ("lock:" ++ rid)
          ∧ kvGet (release_lock s rid oid) ("lock:" ++ rid) = none)
    ∧ (kvGet s ("lock:" ++ rid) ≠ some oid → release_lock s rid oid = s) := by
  constructor
  · intro h
    have he : release_lock s rid oid = kvDel s ("lock:" ++ rid) := by
      unfold release_lock
      rw [h]
      simp
    exact ⟨he, by rw [he]; exact kvGet_kvDel s ("lock:" ++ rid)⟩
  · intro h
    unfold release_lock
    cases hg : kvGet s ("lock:" ++ rid) with
    | none => rfl
    | some v =>
      have : v ≠ oid := fun hv => h (hv ▸ hg)
      simp [this]

/-- Witness for C9: the owner deletes its own lock; a different owner
leaves it in place. -/
theorem C9_release_lock_spec_witness :
    kvGet (release_lock ⟨[⟨"lock:t1", "w1", 300⟩], []⟩ "t1" "w1") "lock:t1" = none
    ∧ release_lock ⟨[⟨"lock:t1", "w1", 300⟩], []⟩ "t1" "w2" =
        ⟨[⟨"lock:t1", "w1", 300⟩], []⟩ := by
  constructor
  · exact ((C9_release_lock_spec ⟨[⟨"lock:t1", "w1", 300⟩], []⟩ "t1" "w1").1 rfl).2
  · exact (C9_release_lock_spec ⟨[⟨"lock:t1", "w1", 300⟩], []⟩ "t1" "w2").2 (by decide)

/-- Claim C1 is wrong about the code (code bug): the worker's acquire
(`StateSynchronizer.acquire_lock`) creates the lock record at key
`"lock:" + task_id`, but the background heartbeat
(`CourseSystem._heartbeat_loop` calling `RedisManager.heartbeat`) writes
EXPIRE to the different key `"lock:task:" + task_id` — a key this flow
never set (the EXPIRE returns false, Redis reply 0), so the held lock's
TTL is never extended and it lapses to natural expiry during long
execution: with task id `"t1"`, after the acquire (TTL 300) and 290
elapsed seconds a heartbeat runs, yet the lock record still has only its
residual 10 seconds and is gone 10 seconds later. -/
theorem C1_heartbeat_refreshes_wrong_key :
    (acquire_lock ⟨[], []⟩ "t1" "w1" 300).2.strings = [⟨"lock:t1", "w1", 300⟩]
    ∧ kvTtl (heartbeat (kvTick (acquire_lock ⟨[], []⟩ "t1" "w1" 300).2 290) "t1" "999")
        "lock:t1" = some 10
    ∧ kvGet (kvTick (heartbeat (kvTick (acquire_lock ⟨[], []⟩ "t1" "w1" 300).2 290)
        "t1" "999") 10) "lock:t1" = none
    ∧ (kvExpire (kvTick (acquire_lock ⟨[], []⟩ "t1" "w1" 300).2 290)
        "lock:task:t1" 300).1 = false := by
  exact ⟨rfl, rfl, rfl, rfl⟩

/-- The retry loop emits only executor-attempt, backoff-wait and
retrying-publication events. -/
theorem retryGo_events (ex : Nat → Except String String) (remaining : Nat) :
    ∀ retries, ∀ e ∈ (retryGo ex retries remaining).1,
      (∃ n, e = Ev.execE n) ∨ (∃ n, e = Ev.waitE n) ∨ (∃ n, e = Ev.pubRetrying n) := by
  induction remaining with
  | zero =>
    intro retries e he
    cases hx : ex retries <;> simp [retryGo, hx] at he <;> simp [he]
  | succ m ih =>
    intro retries e he
    cases hx : ex retries with
    | ok r =>
      simp [retryGo, hx] at he
      simp [he]
    | error err =>
      simp only [retryGo, hx, List.mem_cons] at he
      rcases he with h | h | h | h
      · exact Or.inl ⟨retries, h⟩
      · exact Or.inr (Or.inl ⟨retries, h⟩)
      · exact Or.inr (Or.inr ⟨retries + 1, h⟩)
      · exact ih (retries + 1) e h

/-- The finalize events never occur inside the retry loop. -/
theorem retryGo_no_finalize (ex : Nat → Except String String)
    (remaining retries : Nat) :
    Ev.releaseE ∉ (retryGo ex retries remaining).1
    ∧ Ev.ackE ∉ (retryGo ex retries remaining).1
    ∧ Ev.hbStop ∉ (retryGo ex retries remaining).1 := by
  refine ⟨fun h => ?_, fun h => ?_, fun h => ?_⟩ <;>
    rcases retryGo_events ex remaining retries _ h with ⟨n, hn⟩ | ⟨n, hn⟩ | ⟨n, hn⟩ <;>
      cases hn

/-- Every retry-loop trace starts with the executor attempt at the
current loop counter. -/
theorem retryGo_head (ex : Nat → Except String String) (retries remaining : Nat) :
    ∃ evs, (retryGo ex retries remaining).1 = Ev.execE retries :: evs := by
  cases remaining with
  | zero =>
    cases hx : ex retries with
    | ok r => exact ⟨[], by simp [retryGo, hx]⟩
    | error e => exact ⟨[], by simp [retryGo, hx]⟩
  | succ m =>
    cases hx : ex retries with
    | ok r => exact ⟨[], by simp [retryGo, hx]⟩
    | error e =>
      exact ⟨Ev.waitE retries :: Ev.pubRetrying (retries + 1) ::
          (retryGo ex (retries + 1) m).1, by simp [retryGo, hx]⟩

/-- Claim C2: in every handling pass that acquires the task's lock
(`lockOk = true`, idempotency check not hit), whatever the Executor and
serialization outcomes, the `_handle_task` trace ends with the finalize
sequence — heartbeat stop, lock release, acknowledgment — and lock
release, acknowledgment and heartbeat stop each occur exactly once in
the pass; the pass always reaches a finished result (no escape skips
finalization). -/
theorem C2_finalize_always (st : List (String × String)) (maxR : Nat)
    (ex : Nat → Except String String) (serOk : String → Bool) (serErr : String)
    (hc : completedAlready st = false) :
    (∃ pre, (handle_task st true maxR ex serOk serErr).1 =
        pre ++ [Ev.hbStop, Ev.releaseE, Ev.ackE])
    ∧ (handle_task st true maxR ex serOk serErr).1.count Ev.releaseE = 1
    ∧ (handle_task st true maxR ex serOk serErr).1.count Ev.ackE = 1
    ∧ (handle_task st true maxR ex serOk serErr).1.count Ev.hbStop = 1
    ∧ ∃ b, (handle_task st true maxR ex serOk serErr).2 = HandleRes.finished b := by
  have hnf := retryGo_no_finalize ex maxR 0
  have hr0 : List.count Ev.releaseE (process_task_with_retry ex maxR).1 = 0 :=
    List.count_eq_zero.mpr hnf.1
  have ha0 : List.count Ev.ackE (process_task_with_retry ex maxR).1 = 0 :=
    List.count_eq_zero.mpr hnf.2.1
  have hh0 : List.count Ev.hbStop (process_task_with_retry ex maxR).1 = 0 :=
    List.count_eq_zero.mpr hnf.2.2
  cases hres : (process_task_with_retry ex maxR).2 with
  | ok v =>
    by_cases hs : serOk v
    · have htr : (handle_task st true maxR ex serOk serErr).1 =
          ([Ev.checkState, Ev.lockTry true, Ev.hbStart, Ev.pubRunning]
              ++ (process_task_with_retry ex maxR).1 ++ [Ev.pubCompleted, Ev.reportE true])
            ++ [Ev.hbStop, Ev.releaseE, Ev.ackE] := by
        simp [handle_task, hc, hres, hs]
      refine ⟨⟨_, htr⟩, ?_, ?_, ?_, ⟨true, by simp [handle_task, hc, hres, hs]⟩⟩ <;>
        rw [htr] <;> simp [List.count_append, List.count_cons, hr0, ha0, hh0]
    · have htr : (handle_task st true maxR ex serOk serErr).1 =
          ([Ev.checkState, Ev.lockTry true, Ev.hbStart, Ev.pubRunning]
              ++ (process_task_with_retry ex maxR).1 ++ [Ev.pubFailed serErr, Ev.reportE false])
            ++ [Ev.hbStop, Ev.releaseE, Ev.ackE] := by
        simp [handle_task, hc, hres, hs]
      refine ⟨⟨_, htr⟩, ?_, ?_, ?_, ⟨false, by simp [handle_task, hc, hres, hs]⟩⟩ <;>
        rw [htr] <;> simp [List.count_append, List.count_cons, hr0, ha0, hh0]
  | error e =>
    have htr : (handle_task st true maxR ex serOk serErr).1 =
        ([Ev.checkState, Ev.lockTry true, Ev.hbStart, Ev.pubRunning]
            ++ (process_task_with_retry ex maxR).1 ++ [Ev.pubFailed e, Ev.reportE false])
          ++ [Ev.hbStop, Ev.releaseE, Ev.ackE] := by
      simp [handle_task, hc, hres]
    refine ⟨⟨_, htr⟩, ?_, ?_, ?_, ⟨false, by simp [handle_task, hc, hres]⟩⟩ <;>
      rw [htr] <;> simp [List.count_append, List.count_cons, hr0, ha0, hh0]

/-- Witness for C2: a pass that acquires the lock, fails twice and then
succeeds still finalizes exactly once. -/
theorem C2_finalize_always_witness :
    (∃ pre, (handle_task [] true 3 exTwiceFail (fun _ => true) "").1 =
        pre ++ [Ev.hbStop, Ev.releaseE, Ev.ackE])
    ∧ (handle_task [] true 3 exTwiceFail (fun _ => true) "").1.count Ev.releaseE = 1
    ∧ (handle_task [] true 3 exTwiceFail (fun _ => true) "").1.count Ev.ackE = 1
    ∧ (handle_task [] true 3 exTwiceFail (fun _ => true) "").1.count Ev.hbStop = 1
    ∧ ∃ b, (handle_task [] true 3 exTwiceFail (fun _ => true) "").2 = HandleRes.finished b :=
  C2_finalize_always [] 3 exTwiceFail (fun _ => true) "" rfl

/-- Claim C5: a duplicate delivery — stored state already `completed`,
or lock acquisition returning false because another owner holds it —
makes the worker acknowledge (exactly one removal from the processing
list) and stop: no Executor invocation, no published state transition,
and a non-error skip result. -/
theorem C5_duplicate_skip (st : List (String × String)) (lockOk : Bool) (maxR : Nat)
    (ex : Nat → Except String String) (serOk : String → Bool) (serErr : String)
    (h : completedAlready st = true ∨ lockOk = false) :
    (∀ n, Ev.execE n ∉ (handle_task st lockOk maxR ex serOk serErr).1)
    ∧ (∀ e ∈ (handle_task st lockOk maxR ex serOk serErr).1, isTransition e = false)
    ∧ (handle_task st lockOk maxR ex serOk serErr).1.count Ev.ackE = 1
    ∧ ((handle_task st lockOk maxR ex serOk serErr).2 = HandleRes.skippedCompleted
        ∨ (handle_task st lockOk maxR ex serOk serErr).2 = HandleRes.skippedLocked) := by
  by_cases hc : completedAlready st
  · refine ⟨?_, ?_, ?_, Or.inl ?_⟩ <;> simp [handle_task, hc, isTransition]
  · rcases h with h | h
    · exact absurd h hc
    · subst h
      refine ⟨?_, ?_, ?_, Or.inr ?_⟩ <;> simp [handle_task, hc, isTransition]

/-- Witness for C5: a task whose stored state is `completed` is acked
and skipped without execution. -/
theorem C5_duplicate_skip_witness :
    (∀ n, Ev.execE n ∉
        (handle_task [("status", "completed")] true 3 exTwiceFail (fun _ => true) "").1)
    ∧ (∀ e ∈ (handle_task [("status", "completed")] true 3 exTwiceFail (fun _ => true) "").1,
        isTransition e = false)
    ∧ (handle_task [("status", "completed")] true 3 exTwiceFail (fun _ => true) "").1.count
        Ev.ackE = 1
    ∧ ((handle_task [("status", "completed")] true 3 exTwiceFail (fun _ => true) "").2 =
          HandleRes.skippedCompleted
        ∨ (handle_task [("status", "completed")] true 3 exTwiceFail (fun _ => true) "").2 =
          HandleRes.skippedLocked) :=
  C5_duplicate_skip [("status", "completed")] true 3 exTwiceFail (fun _ => true) ""
    (Or.inl rfl)

/-- Counterexample to claim C4 as stated: the claim requires that on a
retryable failure the worker publishes `retrying` and THEN waits the
backoff before re-invoking the Executor; in the code
(`_process_task_with_retry` lines 293-299) the wait
(`wait_for_retry(retries)`) happens BEFORE the `retrying` publication.
On the fails-twice-then-succeeds run, no `retrying` publication is
immediately followed by a wait (`pubThenWait` is false): each is
immediately followed by the next executor attempt, the wait having
already happened. -/
theorem C4_counterexample :
    pubThenWait (handle_task [] true 3 exTwiceFail (fun _ => true) "").1 = false
    ∧ (handle_task [] true 3 exTwiceFail (fun _ => true) "").1 =
        [Ev.checkState, Ev.lockTry true, Ev.hbStart, Ev.pubRunning,
         Ev.execE 0, Ev.waitE 0, Ev.pubRetrying 1,
         Ev.execE 1, Ev.waitE 1, Ev.pubRetrying 2,
         Ev.execE 2, Ev.pubCompleted, Ev.reportE true,
         Ev.hbStop, Ev.releaseE, Ev.ackE] :=
  ⟨rfl, rfl⟩

/-- Claim C4 as amended: on each Executor failure with fewer than
`max_retries` prior failures the worker first waits the computed
backoff, then publishes `retrying` with the incremented attempt count,
then re-invokes the Executor; a failure with `max_retries` prior
failures triggers no further attempt and the failure propagates,
yielding a terminal `failed` publication carrying the error and a
FAILURE report; the fails-twice-then-succeeds run publishes `retrying`
with retry counts 1 and 2 followed by one `completed` transition. -/
theorem C4_wait_then_publish (st : List (String × String))
    (ex : Nat → Except String String) (serOk : String → Bool) (serErr : String)
    (maxR : Nat) (hc : completedAlready st = false) :
    (∀ retries remaining e, ex retries = .error e → 0 < remaining →
      (retryGo ex retries remaining).1 =
        Ev.execE retries :: Ev.waitE retries :: Ev.pubRetrying (retries + 1) ::
          (retryGo ex (retries + 1) (remaining - 1)).1
      ∧ ∃ evs, (retryGo ex (retries + 1) (remaining - 1)).1 =
          Ev.execE (retries + 1) :: evs)
    ∧ (∀ retries e, ex retries = .error e →
        retryGo ex retries 0 = ([Ev.execE retries], Except.error e))
    ∧ (∀ e, (process_task_with_retry ex maxR).2 = Except.error e →
        handle_task st true maxR ex serOk serErr =
          (([Ev.checkState, Ev.lockTry true, Ev.hbStart, Ev.pubRunning]
              ++ (process_task_with_retry ex maxR).1
              ++ [Ev.pubFailed e, Ev.reportE false])
             ++ [Ev.hbStop, Ev.releaseE, Ev.ackE],
           HandleRes.finished false))
    ∧ (handle_task [] true 3 exTwiceFail (fun _ => true) "").1.filter isTransition =
        [Ev.pubRunning, Ev.pubRetrying 1, Ev.pubRetrying 2, Ev.pubCompleted] := by
  refine ⟨?_, ?_, ?_, rfl⟩
  · intro retries remaining e hx hrem
    cases remaining with
    | zero => exact absurd hrem (by omega)
    | succ m =>
      refine ⟨by simp [retryGo, hx], ?_⟩
      simpa using retryGo_head ex (retries + 1) m
  · intro retries e hx
    simp [retryGo, hx]
  · intro e hres
    simp [handle_task, hc, hres]

/-- Witness for C4 as amended: concrete wait-then-publish unfolding and
the published transitions of the fails-twice-then-succeeds run. -/
theorem C4_wait_then_publish_witness :
    (retryGo exTwiceFail 0 3).1 =
      Ev.execE 0 :: Ev.waitE 0 :: Ev.pubRetrying 1 :: (retryGo exTwiceFail 1 2).1
    ∧ (handle_task [] true 3 exTwiceFail (fun _ => true) "").1.filter isTransition =
        [Ev.pubRunning, Ev.pubRetrying 1, Ev.pubRetrying 2, Ev.pubCompleted] := by
  have h := C4_wait_then_publish [] exTwiceFail (fun _ => true) "" 3 rfl
  exact ⟨(h.1 0 3 "boom" rfl (by omega)).1, h.2.2.2⟩

/-- Removing a value that sits at the head removes exactly the head. -/
theorem lremOne_cons_self (r : RawRec) (l : List RawRec) : lremOne (r :: l) r = l := by
  simp [lremOne]

/-- `LREM 1 b` does not change the number of occurrences of a different
value. -/
theorem count_lremOne_of_ne (l : List RawRec) (a b : RawRec) (h : a ≠ b) :
    (lremOne l b).count a = l.count a := by
  induction l with
  | nil => rfl
  | cons x xs ih =>
    by_cases hx : x = b
    · subst hx
      rw [lremOne_cons_self, List.count_cons_of_ne h]
    · simp only [lremOne, if_neg hx]
      by_cases hax : a = x
      · subst hax
        rw [List.count_cons_self, List.count_cons_self, ih]
      · rw [List.count_cons_of_ne hax, List.count_cons_of_ne hax, ih]

/-- `LREM 1 b` never increases an occurrence count. -/
theorem count_lremOne_le (l : List RawRec) (a b : RawRec) :
    (lremOne l b).count a ≤ l.count a := by
  induction l with
  | nil => exact le_rfl
  | cons x xs ih =>
    by_cases hx : x = b
    · subst hx
      rw [lremOne_cons_self, List.count_cons]
      exact Nat.le_add_right _ _
    · simp only [lremOne, if_neg hx]
      rw [List.count_cons, List.count_cons]
      exact Nat.add_le_add_right ih _

/-- Membership of a different value survives `LREM 1 b`. -/
theorem mem_lremOne_of_ne (l : List RawRec) (a b : RawRec) (h : a ≠ b) (ha : a ∈ l) :
    a ∈ lremOne l b := by
  induction l with
  | nil => cases ha
  | cons x xs ih =>
    by_cases hx : x = b
    · subst hx
      rw [lremOne_cons_self]
      rcases List.mem_cons.mp ha with h1 | h1
      · exact absurd h1 h
      · exact h1
    · simp only [lremOne, if_neg hx]
      rcases List.mem_cons.mp ha with h1 | h1
      · exact h1 ▸ List.mem_cons_self _ _
      · exact List.mem_cons_of_mem _ (ih h1)

/-- Reading back the key just written. -/
theorem listOf_setList_self (m : List (String × List RawRec)) (k : String)
    (l : List RawRec) : listOf (setList m k l) k = l := by
  induction m with
  | nil => simp [setList, listOf]
  | cons p rest ih =>
    obtain ⟨k1, l1⟩ := p
    by_cases hk : k1 = k
    · simp [setList, hk, listOf]
    · simp [setList, hk, listOf, ih]

/-- Occurrence bookkeeping of an association-list write, in additive
form. -/
theorem countIn_setList (m : List (String × List RawRec)) (k : String)
    (l : List RawRec) (r : RawRec) :
    countIn (setList m k l) r + (listOf m k).count r = countIn m r + l.count r := by
  induction m with
  | nil => simp [setList, listOf, countIn]
  | cons p rest ih =>
    obtain ⟨k1, l1⟩ := p
    by_cases hk : k1 = k
    · subst hk
      simp [setList, listOf, countIn]
      omega
    · simp [setList, listOf, countIn, hk]
      have := ih
      simp [countIn] at this
      omega

/-- A list whose `getLast?` is `some x` splits as `dropLast ++ [x]`. -/
theorem eq_dropLast_concat (l : List RawRec) (x : RawRec) (h : l.getLast? = some x) :
    l = l.dropLast ++ [x] := by
  induction l with
  | nil => cases h
  | cons a t ih =>
    cases t with
    | nil =>
      simp only [List.getLast?_singleton, Option.some.injEq] at h
      simp [h]
    | cons b t2 =>
      have h2 : (b :: t2).getLast? = some x := by
        rw [← List.getLast?_cons_cons]
        exact h
      rw [List.dropLast_cons₂, List.cons_append]
      conv_lhs => rw [ih h2]

/-- `RPOPLPUSH` conserves the total occurrence count of every record:
the move is atomic, so no record is ever in neither list. -/
theorem sysCount_rpoplpush (s : QState) (src dst : String) (r : RawRec) :
    sysCount (rpoplpush s src dst).2 r = sysCount s r := by
  unfold rpoplpush
  cases hg : (listOf s.queues src).getLast? with
  | none => rfl
  | some x =>
    have h1 := countIn_setList s.queues src (listOf s.queues src).dropLast r
    have h2 := countIn_setList s.processing dst (x :: listOf s.processing dst) r
    have hc : (listOf s.queues src).count r =
        (listOf s.queues src).dropLast.count r + List.count r [x] := by
      conv_lhs => rw [eq_dropLast_concat _ _ hg]
      rw [List.count_append]
    have hc2 : (x :: listOf s.processing dst).count r =
        List.count r [x] + (listOf s.processing dst).count r := by
      rw [List.count_cons, List.count_cons, List.count_nil]
      omega
    simp only [sysCount]
    omega

/-- `RPUSH` adds exactly one occurrence of the pushed record. -/
theorem sysCount_rpush (s : QState) (q : String) (r0 r : RawRec) :
    sysCount (rpush s q r0) r = sysCount s r + (if r = r0 then 1 else 0) := by
  unfold rpush
  simp only [sysCount]
  have h1 := countIn_setList s.queues q (listOf s.queues q ++ [r0]) r
  have hc : (listOf s.queues q ++ [r0]).count r =
      (listOf s.queues q).count r + (if r = r0 then 1 else 0) := by
    by_cases h : r = r0
    · subst h
      simp [List.count_append, List.count_cons]
    · simp [List.count_append, List.count_cons, h, Ne.symm h]
  omega

/-- Acknowledgment (`LREM`) never increases an occurrence count. -/
theorem sysCount_remove_le (s : QState) (p : String) (b r : RawRec) :
    sysCount (remove_from_processing s p b) r ≤ sysCount s r := by
  unfold remove_from_processing
  simp only [sysCount]
  have h1 := countIn_setList s.processing p (lremOne (listOf s.processing p) b) r
  have h2 := count_lremOne_le (listOf s.processing p) r b
  omega

/-- Acknowledging one record leaves the counts of all others unchanged. -/
theorem sysCount_remove_of_ne (s : QState) (p : String) (b r : RawRec) (h : r ≠ b) :
    sysCount (remove_from_processing s p b) r = sysCount s r := by
  unfold remove_from_processing
  simp only [sysCount]
  have h1 := countIn_setList s.processing p (lremOne (listOf s.processing p) b) r
  have h2 := count_lremOne_of_ne (listOf s.processing p) r b h
  omega

/-- The `safe_fetch` scan conserves the occurrence count of every task
record (invalid-JSON records may be dropped, task records never). -/
theorem sysCount_safeFetchGo (proc : String) (qs : List String) :
    ∀ (s : QState) (id str : String),
      sysCount (safeFetchGo proc qs s).2 (RawRec.task id str) =
        sysCount s (RawRec.task id str) := by
  induction qs with
  | nil => intro s id str; rfl
  | cons q rest ih =>
    intro s id str
    rcases hro : rpoplpush s q proc with ⟨o, s1⟩
    have hs1 : sysCount s1 (RawRec.task id str) = sysCount s (RawRec.task id str) := by
      have h := sysCount_rpoplpush s q proc (RawRec.task id str)
      rw [hro] at h
      exact h
    cases o with
    | none =>
      simp only [safeFetchGo, hro]
      exact ih s id str
    | some r =>
      cases r with
      | invalid t =>
        simp only [safeFetchGo, hro]
        rw [ih, sysCount_remove_of_ne _ _ _ _ (by intro hcon; cases hcon)]
        exact hs1
      | noId t =>
        simp only [safeFetchGo, hro]
        rw [ih]
        exact hs1
      | task tid ts =>
        simp only [safeFetchGo, hro]
        exact hs1

/-- When `safe_fetch` returns a record, that record parses with the
returned id and sits at the head of the worker's processing list in the
resulting state. -/
theorem safeFetchGo_some (proc : String) (qs : List String) :
    ∀ (s : QState) (id q1 : String) (r : RawRec),
      (safeFetchGo proc qs s).1 = some (id, q1, r) →
      (∃ str, r = RawRec.task id str)
      ∧ ∃ tl, listOf (safeFetchGo proc qs s).2.processing proc = r :: tl := by
  induction qs with
  | nil => intro s id q1 r h; cases h
  | cons q rest ih =>
    intro s id q1 r h
    cases hg : (listOf s.queues q).getLast? with
    | none =>
      have hro : rpoplpush s q proc = (none, s) := by
        unfold rpoplpush
        rw [hg]
      simp only [safeFetchGo, hro] at h ⊢
      exact ih s id q1 r h
    | some x =>
      have hro : rpoplpush s q proc = (some x,
          { queues := setList s.queues q (listOf s.queues q).dropLast,
            processing := setList s.processing proc (x :: listOf s.processing proc) }) := by
        unfold rpoplpush
        rw [hg]
      cases x with
      | invalid t =>
        simp only [safeFetchGo, hro] at h ⊢
        exact ih _ id q1 r h
      | noId t =>
        simp only [safeFetchGo, hro] at h ⊢
        exact ih _ id q1 r h
      | task tid ts =>
        simp only [safeFetchGo, hro, Option.some.injEq, Prod.mk.injEq] at h ⊢
        obtain ⟨h1, _, h3⟩ := h
        refine ⟨⟨ts, by rw [← h3, h1]⟩, listOf s.processing proc, ?_⟩
        rw [← h3, listOf_setList_self]

/-- Records other than invalid-JSON ones that are already in the
worker's processing list stay there across a `safe_fetch` scan. -/
theorem mem_processing_safeFetchGo (proc : String) (qs : List String) :
    ∀ (s : QState) (r : RawRec), (∀ t, r ≠ RawRec.invalid t) →
      r ∈ listOf s.processing proc →
      r ∈ listOf (safeFetchGo proc qs s).2.processing proc := by
  induction qs with
  | nil => intro s r _ hr; exact hr
  | cons q rest ih =>
    intro s r hinv hr
    cases hg : (listOf s.queues q).getLast? with
    | none =>
      have hro : rpoplpush s q proc = (none, s) := by
        unfold rpoplpush
        rw [hg]
      simp only [safeFetchGo, hro]
      exact ih s r hinv hr
    | some x =>
      have hro : rpoplpush s q proc = (some x,
          { queues := setList s.queues q (listOf s.queues q).dropLast,
            processing := setList s.processing proc (x :: listOf s.processing proc) }) := by
        unfold rpoplpush
        rw [hg]
      have hmem1 : r ∈ x :: listOf s.processing proc := List.mem_cons_of_mem _ hr
      have hmem2 : r ∈ listOf (setList s.processing proc
          (x :: listOf s.processing proc)) proc := by
        rw [listOf_setList_self]
        exact hmem1
      cases x with
      | invalid t =>
        simp only [safeFetchGo, hro]
        apply ih _ r hinv
        unfold remove_from_processing
        simp only [listOf_setList_self]
        exact mem_lremOne_of_ne _ _ _ (hinv t) hmem1
      | noId t =>
        simp only [safeFetchGo, hro]
        exact ih _ r hinv hmem2
      | task tid ts =>
        simp only [safeFetchGo, hro]
        exact hmem2

/-- The leftover-recovery pass drains the processing list completely:
each iteration reads the head and removes it (directly for invalid or
id-less records, through the finalize ack of `_handle_task` for task
records). -/
theorem processLeftovers_eq_nil (l : List RawRec) : processLeftovers l = [] := by
  induction l with
  | nil =>
    rw [processLeftovers]
  | cons r rest ih =>
    rw [processLeftovers, lremOne_cons_self]
    exact ih

/-- Claim C3: under the queue operations — fresh enqueue, `safe_fetch`,
acknowledgment (which is also the leftover removal) — every task record
is in at most one place at every reachable instant (the at-most-one
invariant is preserved by every step); `safe_fetch` conserves the
occurrence count of every task record — being an atomic move it can
never leave a fetched task in neither the source queue nor the
processing list — and a fetched record is in the fetching worker's
processing list in the post state. -/
theorem C3_task_exactly_one_place (s s1 : QState) (hstep : QStep s s1)
    (hinv : TaskInv s) :
    TaskInv s1
    ∧ (∀ (proc id str : String),
        sysCount (safe_fetch s proc).2 (RawRec.task id str) =
          sysCount s (RawRec.task id str))
    ∧ (∀ (proc id q : String) (r : RawRec),
        (safe_fetch s proc).1 = some (id, q, r) →
        ∃ tl, listOf (safe_fetch s proc).2.processing proc = r :: tl) := by
  refine ⟨?_, fun proc id str => sysCount_safeFetchGo proc defaultQueues s id str,
    fun proc id q r h => (safeFetchGo_some proc defaultQueues s id q r h).2⟩
  intro id str
  cases hstep with
  | enqueue q r0 h0 =>
    rw [sysCount_rpush]
    split_ifs with hr
    · have h2 : sysCount s (RawRec.task id str) = 0 := by
        rw [hr]
        exact h0
      omega
    · have := hinv id str
      omega
  | fetch proc =>
    have h := sysCount_safeFetchGo proc defaultQueues s id str
    unfold safe_fetch
    rw [h]
    exact hinv id str
  | ackStep proc r0 =>
    exact le_trans (sysCount_remove_le s proc r0 _) (hinv id str)

/-- Witness for C3: a concrete fetch step conserves the task record and
keeps the at-most-one invariant. -/
theorem C3_task_exactly_one_place_witness :
    sysCount (safe_fetch ⟨[("tasks:high", [RawRec.task "a" "ra"])], []⟩ "p").2
        (RawRec.task "a" "ra")
      = sysCount ⟨[("tasks:high", [RawRec.task "a" "ra"])], []⟩ (RawRec.task "a" "ra")
    ∧ sysCount (safe_fetch ⟨[("tasks:high", [RawRec.task "a" "ra"])], []⟩ "p").2
        (RawRec.task "a" "ra") ≤ 1 := by
  have hinv0 : TaskInv ⟨[("tasks:high", [RawRec.task "a" "ra"])], []⟩ := by
    intro id str
    simp only [sysCount, countIn, List.map_cons, List.map_nil, List.sum_cons,
      List.sum_nil, List.count_cons, List.count_nil]
    split <;> omega
  have h := C3_task_exactly_one_place _ _
    (QStep.fetch ⟨[("tasks:high", [RawRec.task "a" "ra"])], []⟩ "p") hinv0
  exact ⟨h.2.1 "p" "a" "ra", h.1 "a" "ra"⟩

/-- Claim C7: `safe_fetch` scans the priority queues in the fixed order
high, medium, low, default; for the first queue with content (here, one
whose tail parses as a task) it atomically moves that queue's tail onto
the processing list and returns the parsed task together with the exact
raw serialized record. -/
theorem C7_priority_order (s : QState) (proc q id str : String)
    (pre rest : List String) (l : List RawRec)
    (hpre : ∀ q1 ∈ pre, listOf s.queues q1 = [])
    (hq : listOf s.queues q = l ++ [RawRec.task id str]) :
    safeFetchGo proc (pre ++ q :: rest) s =
      (some (id, q, RawRec.task id str),
       { queues := setList s.queues q l,
         processing := setList s.processing proc
             (RawRec.task id str :: listOf s.processing proc) }) := by
  induction pre with
  | nil =>
    have hg : (listOf s.queues q).getLast? = some (RawRec.task id str) := by
      rw [hq]
      exact List.getLast?_concat _
    have hdl : (listOf s.queues q).dropLast = l := by
      rw [hq]
      exact List.dropLast_concat
    have hro : rpoplpush s q proc = (some (RawRec.task id str),
        { queues := setList s.queues q l,
          processing := setList s.processing proc
              (RawRec.task id str :: listOf s.processing proc) }) := by
      unfold rpoplpush
      rw [hg, hdl]
    rw [List.nil_append]
    simp only [safeFetchGo, hro]
  | cons q1 pres ih =>
    have h1 : listOf s.queues q1 = [] := hpre q1 (List.mem_cons_self _ _)
    have hro : rpoplpush s q1 proc = (none, s) := by
      unfold rpoplpush
      rw [h1]
      rfl
    rw [List.cons_append]
    simp only [safeFetchGo, hro]
    exact ih (fun x hx => hpre x (List.mem_cons_of_mem _ hx))

/-- Witness for C7: with one task in the `low` queue and one in the
`high` queue, `safe_fetch` returns the high-queue task first. -/
theorem C7_priority_order_witness :
    safe_fetch ⟨[("tasks:low", [RawRec.task "t_lo" "rawlo"]),
                 ("tasks:high", [RawRec.task "t_hi" "rawhi"])], []⟩ "p" =
      (some ("t_hi", "tasks:high", RawRec.task "t_hi" "rawhi"),
       { queues := setList [("tasks:low", [RawRec.task "t_lo" "rawlo"]),
              ("tasks:high", [RawRec.task "t_hi" "rawhi"])] "tasks:high" [],
         processing := setList [] "p" (RawRec.task "t_hi" "rawhi" :: listOf [] "p") }) :=
  C7_priority_order ⟨[("tasks:low", [RawRec.task "t_lo" "rawlo"]),
      ("tasks:high", [RawRec.task "t_hi" "rawhi"])], []⟩ "p" "tasks:high" "t_hi" "rawhi"
    [] ["tasks:medium", "tasks:low", "tasks:default"] []
    (fun q1 hq1 => absurd hq1 (List.not_mem_nil q1)) (by decide)

/-- Claim C10: a popped record that parses as JSON but lacks a truthy id
is neither returned nor removed from the processing list: it stays in
the worker's processing list while the scan moves on to the next
priority queue (the unfolding equation), every record `safe_fetch` does
return is a different, task-parsing record, the id-less record is still
in the processing list when the scan finishes, and the startup
leftover-recovery pass removes id-less entries. -/
theorem C10_noid_record_stays (s : QState) (proc q str : String)
    (rest : List String) (l : List RawRec)
    (hq : listOf s.queues q = l ++ [RawRec.noId str]) :
    (safeFetchGo proc (q :: rest) s =
       safeFetchGo proc rest
         { queues := setList s.queues q l,
           processing := setList s.processing proc
               (RawRec.noId str :: listOf s.processing proc) })
    ∧ (∀ (id q1 : String) (r : RawRec),
        (safeFetchGo proc (q :: rest) s).1 = some (id, q1, r) → r ≠ RawRec.noId str)
    ∧ RawRec.noId str ∈ listOf (safeFetchGo proc (q :: rest) s).2.processing proc
    ∧ ∀ lp : List RawRec, RawRec.noId str ∉ processLeftovers lp := by
  have hg : (listOf s.queues q).getLast? = some (RawRec.noId str) := by
    rw [hq]
    exact List.getLast?_concat _
  have hdl : (listOf s.queues q).dropLast = l := by
    rw [hq]
    exact List.dropLast_concat
  have hro : rpoplpush s q proc = (some (RawRec.noId str),
      { queues := setList s.queues q l,
        processing := setList s.processing proc
            (RawRec.noId str :: listOf s.processing proc) }) := by
    unfold rpoplpush
    rw [hg, hdl]
  have hunf : safeFetchGo proc (q :: rest) s =
      safeFetchGo proc rest
        { queues := setList s.queues q l,
          processing := setList s.processing proc
              (RawRec.noId str :: listOf s.processing proc) } := by
    simp only [safeFetchGo, hro]
  refine ⟨hunf, ?_, ?_, ?_⟩
  · intro id q1 r h
    obtain ⟨⟨str2, hstr⟩, _⟩ := safeFetchGo_some proc (q :: rest) s id q1 r h
    rw [hstr]
    intro hcon
    cases hcon
  · rw [hunf]
    apply mem_processing_safeFetchGo
    · intro t hcon
      cases hcon
    · rw [listOf_setList_self]
      exact List.mem_cons_self _ _
  · intro lp
    rw [processLeftovers_eq_nil]
    exact List.not_mem_nil _

/-- Witness for C10: a concrete id-less record at the tail of the high
queue stays in the processing list across the scan and is removed by the
leftover pass. -/
theorem C10_noid_record_stays_witness :
    RawRec.noId "bad" ∈ listOf (safeFetchGo "p"
        ("tasks:high" :: ["tasks:medium", "tasks:low", "tasks:default"])
        ⟨[("tasks:high", [RawRec.noId "bad"]),
          ("tasks:default", [RawRec.task "t1" "raw1"])], []⟩).2.processing "p"
    ∧ RawRec.noId "bad" ∉ processLeftovers [RawRec.noId "bad"] :=
  ⟨(C10_noid_record_stays ⟨[("tasks:high", [RawRec.noId "bad"]),
      ("tasks:default", [RawRec.task "t1" "raw1"])], []⟩ "p" "tasks:high" "bad"
      ["tasks:medium", "tasks:low", "tasks:default"] [] (by decide)).2.2.1,
   (C10_noid_record_stays ⟨[("tasks:high", [RawRec.noId "bad"]),
      ("tasks:default", [RawRec.task "t1" "raw1"])], []⟩ "p" "tasks:high" "bad"
      ["tasks:medium", "tasks:low", "tasks:default"] [] (by decide)).2.2.2 _⟩

/-- Claim C8: for every attempt count `n` and every admissible jitter
(drawn uniformly from `[0, 10% of base_delay * 2^n]`), the backoff is
`base_delay * 2^n` plus the jitter, capped at `max_delay`; every
returned value is at most `max_delay`; the least possible value over
admissible jitters is `min (base_delay * 2^n) max_delay`, attained at
jitter 0; and that lower bound is non-decreasing in the attempt count
(in particular over attempts 0..10). -/
theorem C8_backoff_capped_monotone (cfg : RetryCfg) (n : Nat) (j : ℚ)
    (hb : 0 ≤ cfg.base_delay) (hj : jitterAdmissible cfg n j) :
    get_backoff_time cfg n j ≤ cfg.max_delay
    ∧ backoffLower cfg n ≤ get_backoff_time cfg n j
    ∧ get_backoff_time cfg n 0 = backoffLower cfg n
    ∧ backoffLower cfg n ≤ backoffLower cfg (n + 1) := by
  obtain ⟨hj0, _⟩ := hj
  refine ⟨min_le_right _ _, ?_, by simp [get_backoff_time, backoffLower], ?_⟩
  · exact min_le_min (by linarith) le_rfl
  · apply min_le_min _ le_rfl
    have h2 : (2 : ℚ) ^ n ≤ 2 ^ (n + 1) :=
      pow_le_pow_right₀ (by norm_num) (Nat.le_succ n)
    exact mul_le_mul_of_nonneg_left h2 hb

/-- Witness for C8: the default configuration at attempt 3 with
jitter 1/20. -/
theorem C8_backoff_capped_monotone_witness :
    get_backoff_time defaultRetryCfg 3 (1 / 20) ≤ defaultRetryCfg.max_delay
    ∧ backoffLower defaultRetryCfg 3 ≤ get_backoff_time defaultRetryCfg 3 (1 / 20)
    ∧ get_backoff_time defaultRetryCfg 3 0 = backoffLower defaultRetryCfg 3
    ∧ backoffLower defaultRetryCfg 3 ≤ backoffLower defaultRetryCfg 4 :=
  C8_backoff_capped_monotone defaultRetryCfg 3 (1 / 20)
    (by norm_num [defaultRetryCfg])
    (by constructor <;> norm_num [defaultRetryCfg])

end CourseWorker
